import Mathlib

/-!
Verification development for the Tremulous content server
(`src/tremulous_client/node/web.js`, the second script in the repository:
the `/assets` manifest and asset-delivery service).

Modelling conventions
=====================
* Paths are modelled as lists of `/`-separated segments (`List String`);
  a path string and its segment list are in bijection because directory
  entry names never contain `'/'`.  A pair `Bool × List String` denotes a
  possibly-absolute path: the flag is true when the rendered string starts
  with `'/'`.  Two rendered path strings are equal exactly when their
  (flag, normalized segment list) pairs are equal.
* Bytes are `Nat`s below 256; machine 32-bit arithmetic in the CRC32
  computation is done on `Nat` with explicit masking (`% 256`, `/ 256`,
  `^^^` against 32-bit constants), mirroring JavaScript's value semantics
  of `& 0xff`, `>>> 8` and `^` followed by `>>> 0`.
* `fs.createReadStream` delivers a file's bytes as an ordered sequence of
  chunks whose concatenation is the file content; the chunk boundaries are
  chosen by the runtime, so the pipeline is parametrised by a chunking
  function `ch : List Nat → List (List Nat)`.
* The gzip encoder (`zlib.createGzip()`) is an external library, not code
  of this repository; it is modelled as an abstract whole-stream encoder
  `g : List Nat → List Nat` whose emitted-byte total over the chunked
  stream (flush included) is the length of its output on the concatenated
  input.  Format-level facts about gzip are isolated in `GzipFacts`.
* The filesystem snapshot is a finite tree `FsTree`; a file node carries
  the outcome of reading its byte stream (`Except.error` models a stream
  `error` event, which `generateManifest` turns into an aborted build).
-/

namespace TremWeb

/-! ### Path segments and Node path functions -/

/-- A well-formed directory-entry name as `fs.readdirSync` reports it:
nonempty, not `"."` or `".."`, and containing no `'/'`. -/
def goodSegB (s : String) : Bool :=
  s != "" && s != "." && s != ".." && !(s.toList.contains '/')

/-- One step of Node's path normalization over a reversed stack of output
segments: `""` and `"."` are dropped, `".."` pops the previous real segment
when there is one, is dropped at the root of an absolute path, and is kept
(accumulating leading `".."`s) on a relative path; any other segment is
pushed. -/
def normStep (isAbs : Bool) (stack : List String) (seg : String) : List String :=
  if seg == "" || seg == "." then stack
  else if seg == ".." then
    match stack with
    | [] => if isAbs then [] else [".."]
    | top :: rest => if top == ".." then seg :: top :: rest else rest
  else seg :: stack

/-- Node path normalization of a segment list (the segment-level content of
`path.normalize`, rendering aside). -/
def normalizeSegs (isAbs : Bool) (segs : List String) : List String :=
  (segs.foldl (normStep isAbs) []).reverse

/-- `path.join(basedir, basename)` (web.js line 233): concatenate and
normalize.  The result is absolute exactly when the first raw segment is
empty, i.e. the first non-empty argument string started with `'/'`. -/
def pathJoin (basedir basename : List String) : Bool × List String :=
  let raw := basedir ++ basename
  let isAbs := raw.head? == some ""
  (isAbs, normalizeSegs isAbs raw)

/-- `path.resolve(config.root, relativePath)` (web.js line 234) for an
absolute, already-normalized `root`: an absolute argument wins, otherwise
the argument is resolved against the root. -/
def pathResolve (root : List String) (p : Bool × List String) : List String :=
  if p.1 then p.2 else normalizeSegs true (root ++ p.2)

/-- `path.relative(root, abs)` (web.js lines 150 and 175) in the only case
the server exercises: `abs` lies below `root`, so the relative path is the
remaining suffix of segments. -/
def pathRelative (root abs : List String) : List String :=
  abs.drop root.length

/-- `path.extname` applied to a single path segment (the basename): the
suffix from the last `'.'`, or `""` when there is no dot or the only
leading dot marks a dotfile.  (Inputs here are directory entry names, so
the `".."` corner of Node's rule cannot arise.) -/
def extname (s : String) : String :=
  let cs := s.toList
  let tailAfter := cs.reverse.takeWhile (fun c => c != '.')
  if tailAfter.length == cs.length then ""
  else if tailAfter.length + 1 == cs.length then ""
  else String.mk ('.' :: tailAfter.reverse)

/-- `path.extname` of a relative path given as a segment list: the
extension of its last segment (Node only inspects the part after the last
separator). -/
def extnamePath (p : List String) : String :=
  match p.getLast? with
  | some b => extname b
  | none => ""

/-! ### Filesystem snapshot and asset discovery (`getAssets`, lines 137-164) -/

/-- A snapshot of a directory tree.  A file node carries the outcome of
reading its byte stream: `Except.ok bytes` for a successful read,
`Except.error e` when the read stream emits an `error` event. -/
inductive FsTree where
  | file (content : Except String (List Nat))
  | dir (entries : List (String × FsTree))

/-- `readDirRecursive` (lines 140-154): depth-first traversal of the
directory entries in order, producing for every file its path relative to
the walk root (as segments) together with its read outcome.  Directories
are recursed into at their position; files are emitted at theirs. -/
def walkList : List (String × FsTree) → List (List String × Except String (List Nat))
  | [] => []
  | (n, FsTree.file c) :: rest => ([n], c) :: walkList rest
  | (n, FsTree.dir es) :: rest =>
      (walkList es).map (fun pc => (n :: pc.1, pc.2)) ++ walkList rest

/-- Well-formedness of a directory snapshot, as real filesystems guarantee:
within each directory the entry names are pairwise distinct well-formed
segment names (no `'/'`, not `"."` or `".."`). -/
def wfEntries : List (String × FsTree) → Bool
  | [] => true
  | (n, FsTree.file _) :: rest =>
      goodSegB n && rest.all (fun e => e.1 != n) && wfEntries rest
  | (n, FsTree.dir es) :: rest =>
      goodSegB n && rest.all (fun e => e.1 != n) && wfEntries es && wfEntries rest

/-- `getAssets` (lines 137-164): walk the content root, keep the files
whose `path.extname` occurs in the `validAssets` allow-list
(`indexOf !== -1`, an exact case-sensitive string comparison), and map
each back to its absolute path `path.join(config.root, file)`.  The read
outcome of each file is carried alongside its path: opening the returned
path with `fs.createReadStream` yields exactly that file's stream. -/
def getAssets (root : List String) (tree : List (String × FsTree))
    (validAssets : List String) : List (List String × Except String (List Nat)) :=
  ((walkList tree).filter (fun pc => validAssets.contains (extnamePath pc.1))).map
    (fun pc => (root ++ pc.1, pc.2))

/-! ### CRC32 (the `buffer-crc32` library used at lines 176 and 193) -/

/-- One bit-step of the reflected CRC-32 polynomial 0xEDB88320. -/
def crcBitStep (c : Nat) : Nat :=
  if c % 2 == 1 then (c / 2) ^^^ 0xEDB88320 else c / 2

/-- Iterate the bit-step. -/
def crcTableAux : Nat → Nat → Nat
  | 0, c => c
  | k + 1, c => crcTableAux k (crcBitStep c)

/-- The CRC table entry for a byte: eight bit-steps (`CRC_TABLE[b]`). -/
def crcTable (b : Nat) : Nat := crcTableAux 8 b

/-- The per-byte update loop of `buffer-crc32`:
`crc = CRC_TABLE[(crc ^ buf[n]) & 0xff] ^ (crc >>> 8)`. -/
def crc32Update (buf : List Nat) (crc : Nat) : Nat :=
  buf.foldl (fun c byte => crcTable ((c ^^^ byte) % 256) ^^^ (c / 256)) crc

/-- `crc32.unsigned(buf, previous)`: the accumulator is seeded with
`previous ^ -1` (and `~~undefined = 0`, so a missing or zero `previous`
seeds `0xFFFFFFFF`), updated over the buffer, and finalized with `^ -1`;
`>>> 0` makes the result unsigned, which on `Nat` is the identity. -/
def crc32unsigned (buf : List Nat) (previous : Nat) : Nat :=
  crc32Update buf (previous ^^^ 0xFFFFFFFF) ^^^ 0xFFFFFFFF

/-! ### The integrity pipeline and manifest builder (`generateManifest`, lines 166-217) -/

/-- One manifest entry, as built at lines 205-209: the object literal
`{name: name, compressed: compressed, checksum: crc}`. -/
structure ManifestEntry where
  name : List String
  compressed : Nat
  checksum : Nat
deriving DecidableEq

/-- The entry produced by one file's integrity pipeline (lines 172-210):
`name` is `path.relative(config.root, file)`; the checksum accumulator is
seeded with `crc32.unsigned('')` and folded over the stream's chunks in
order with `crc32.unsigned(data, crc)`; `compressed` totals the bytes the
gzip encoder emits across the whole stream, flush included — for the
whole-stream encoder `g` that is the length of `g` applied to the file's
bytes. -/
def mkEntry (g : List Nat → List Nat) (ch : List Nat → List (List Nat))
    (root file : List String) (content : List Nat) : ManifestEntry :=
  { name := pathRelative root file
  , compressed := (g content).length
  , checksum := (ch content).foldl (fun crc data => crc32unsigned data crc)
      (crc32unsigned [] 0) }

/-- Fold the per-file pipelines over the discovered assets.  A stream
`error` event makes the pipeline invoke the outer `callback(err)`
(line 190), aborting the whole build with that error; otherwise every
file contributes one entry. -/
def buildEntries (g : List Nat → List Nat) (ch : List Nat → List (List Nat))
    (root : List String) :
    List (List String × Except String (List Nat)) → Except String (List ManifestEntry)
  | [] => Except.ok []
  | (_, Except.error e) :: _ => Except.error e
  | (file, Except.ok c) :: rest =>
      (buildEntries g ch root rest).map (fun es => mkEntry g ch root file c :: es)

/-- `generateManifest` (lines 166-217): discover the assets, run every
file's integrity pipeline, and either deliver the list of entries or the
first read error. -/
def generateManifest (g : List Nat → List Nat) (ch : List Nat → List (List Nat))
    (root : List String) (tree : List (String × FsTree))
    (validAssets : List String) : Except String (List ManifestEntry) :=
  buildEntries g ch root (getAssets root tree validAssets)

/-- The value logged at line 213, `(Date.now() - start) / 1000`: the only
consumer of the `start = Date.now()` taken at line 170. -/
def generateManifestLogSeconds (tStart tCallback : Nat) : Nat :=
  (tCallback - tStart) / 1000

/-! ### JSON payloads and the manifest endpoint (`handleManifest`, lines 219-226) -/

/-- The fragment of JSON that `res.json` produces for manifests. -/
inductive Json where
  | num (n : Nat)
  | str (s : String)
  | arr (elems : List Json)
  | obj (fields : List (String × Json))

/-- Render a relative segment path as its path string. -/
def renderPath (p : List String) : String := String.intercalate "/" p

/-- JSON serialization of one manifest entry: the object literal of lines
205-209 has exactly the keys `name`, `compressed`, `checksum`, in that
order. -/
def jsonOfEntry (e : ManifestEntry) : Json :=
  Json.obj [("name", Json.str (renderPath e.name)),
            ("compressed", Json.num e.compressed),
            ("checksum", Json.num e.checksum)]

/-- The field names of a JSON object (and `[]` on non-objects). -/
def objFieldNames : Json → List String
  | Json.obj fs => fs.map Prod.fst
  | _ => []

/-- The elements of a JSON array (and `[]` on non-arrays). -/
def jsonElems : Json → List Json
  | Json.arr xs => xs
  | _ => []

/-! ### Server state and startup (`main`, lines 275-301) -/

/-- The process-wide state that `main` establishes: the published manifest
and its timestamp (lines 288-289), whether the HTTP server was started
(line 296), and the error thrown when the initial build fails
(line 287). -/
structure ServerState where
  currentManifest : Option (List ManifestEntry)
  currentManifestTimestamp : Option Nat
  listening : Bool
  fatal : Option String

/-- `main` (lines 285-300): run `generateManifest`; on error, `throw err`
terminates startup with nothing published and no server listening; on
success, `currentManifestTimestamp = new Date()` is taken inside the
completion callback — at time `tCallback`, after the build finished — the
manifest is published, and the server starts listening.  `tStart` is the
wall-clock value `Date.now()` read at line 170 when the build began; the
code uses it only for the duration log (`generateManifestLogSeconds`). -/
def mainStartup (g : List Nat → List Nat) (ch : List Nat → List (List Nat))
    (root : List String) (tree : List (String × FsTree)) (validAssets : List String)
    (tStart tCallback : Nat) : ServerState :=
  match generateManifest g ch root tree validAssets with
  | Except.error e =>
      { currentManifest := none, currentManifestTimestamp := none
      , listening := false, fatal := some e }
  | Except.ok m =>
      { currentManifest := some m, currentManifestTimestamp := some tCallback
      , listening := true, fatal := none }

/-- The response of `handleManifest` (lines 219-226): a revalidation
cache-control header, `Last-Modified` from `currentManifestTimestamp`, and
`res.json(currentManifest)` as the body.  The server only accepts requests
after the initial publish, so the state's manifest is present. -/
structure ManifestResponse where
  cacheControl : String
  lastModified : Option Nat
  body : Json

def handleManifest (st : ServerState) : ManifestResponse :=
  { cacheControl := "public, max-age=60, must-revalidate"
  , lastModified := st.currentManifestTimestamp
  , body := Json.arr ((st.currentManifest.getD []).map jsonOfEntry) }

/-! ### The asset endpoint (`handleAsset`, lines 228-255) -/

/-- The observable outcome of `handleAsset`: either `res.status(400).end()`
or `res.sendFile(absolutePath, {maxAge: Infinity})`.  The response depends
on the manifest and the request alone; no field of the matched entry other
than its existence reaches the response. -/
inductive AssetResponse where
  | badRequest
  | serve (absolutePath : List String)
deriving DecidableEq

/-- JavaScript's `\d`: the ASCII decimal digits. -/
def isDigitChar (c : Char) : Bool := '0' ≤ c && c ≤ '9'

/-- `parseInt(s, 10)` on the strings this server can receive: the leading
run of decimal digits read as a base-10 integer, `none` for `NaN` (no
leading digit).  The route only ever supplies nonempty all-digit strings;
`NaN` compares unequal to every number.  (For digit runs the float64
`Number` is exact up to 2⁵³ and otherwise rounds to a value ≥ 2⁵³, so
comparing the `Nat` value against a 32-bit checksum is faithful.) -/
def parseIntDec (cs : List Char) : Option Nat :=
  let ds := cs.takeWhile isDigitChar
  if ds.isEmpty then none
  else some (ds.foldl (fun a c => a * 10 + (c.toNat - 48)) 0)

/-- The test of the lookup loop at line 241:
`entry.name === relativePath && entry.checksum === checksum`.  String
equality of a stored relative name with the rendered candidate path holds
exactly when the candidate is relative and their normalized segment lists
agree; an absolute candidate renders with a leading `'/'` and can never
equal a stored name. -/
def entryMatches (e : ManifestEntry) (rp : Bool × List String)
    (checksum : Option Nat) : Bool :=
  !rp.1 && e.name == rp.2 && checksum == some e.checksum

/-- `handleAsset` (lines 228-255): parse the checksum with
`parseInt(·, 10)`, reconstruct `relativePath = path.join(basedir,
basename)` and `absolutePath = path.resolve(config.root, relativePath)`,
scan the current manifest for an entry matching name and checksum, and
answer 400 when none exists, else stream the file at `absolutePath`.
The filesystem is not consulted for the decision. -/
def handleAsset (root : List String) (manifest : List ManifestEntry)
    (basedir : List String) (checksumStr : List Char) (basename : List String) :
    AssetResponse :=
  let checksum := parseIntDec checksumStr
  let relativePath := pathJoin basedir basename
  let absolutePath := pathResolve root relativePath
  match manifest.find? (fun e => entryMatches e relativePath checksum) with
  | some _ => AssetResponse.serve absolutePath
  | none => AssetResponse.badRequest

/-! ### The asset route (line 283) -/

/-- Match of the route regular expression
`^\/assets\/(.+\/|)(\d+)-(.+?)$` against a request path, following the
JavaScript backtracking semantics.  Group 1 (`.+\/|`) prefers the longest
prefix that ends in `'/'` at index ≥ 1 and falls back to the empty string;
group 2 (`\d+`) is the maximal digit run at its position (a shorter run
would be followed by a digit, not `'-'`); group 3 (`.+?`) anchored by `$`
is the nonempty remainder. -/
def routeTail (rest : List Char) : Option (List Char × List Char) :=
  let d := rest.takeWhile isDigitChar
  match rest.drop d.length with
  | c :: b => if c == '-' && !d.isEmpty && !b.isEmpty then some (d, b) else none
  | [] => none

/-- Candidate lengths for group 1, in the regex engine's preference order:
every prefix ending at a `'/'` from rightmost to leftmost (the slash index
must be ≥ 1 because `.+` needs a character before it), then the empty
alternative. -/
def slashCands (rest : List Char) : List Nat :=
  (((List.range rest.length).filter
      (fun i => decide (1 ≤ i) && (rest.getD i ' ' == '/'))).reverse.map
    (fun i => i + 1)) ++ [0]

def matchAssetRoute (u : List Char) : Option (List Char × List Char × List Char) :=
  if u.take 8 = "/assets/".toList then
    let rest := u.drop 8
    (slashCands rest).findSome? (fun len =>
      (routeTail (rest.drop len)).map (fun db => (rest.take len, db.1, db.2)))
  else none

/-! ### The `async.map` fan-out (line 172) -/

/-- Scheduling events of the manifest build's fan-out: pipeline `i` is
started (its read stream opened, its callbacks registered) or finished
(its gzip `end` event fired). -/
inductive PipelineEvent where
  | start (i : Nat)
  | finish (i : Nat)

/-- `async.map` (line 172) imposes no concurrency limit (it is
`mapLimit` with limit `Infinity`): its dispatch loop synchronously starts
the iteratee for every element of the list, and the iteratee here returns
after opening the stream and registering event handlers.  All completions
are I/O callbacks that run only after the dispatch loop, so a build over
`n` assets produces `n` start events followed by the finish events in
whatever order the streams complete. -/
def asyncMapTrace (n : Nat) (finishOrder : List Nat) : List PipelineEvent :=
  (List.range n).map PipelineEvent.start ++ finishOrder.map PipelineEvent.finish

/-- Running (in-flight, high-water-mark) counters over a trace. -/
def inFlightStep : Nat × Nat → PipelineEvent → Nat × Nat
  | (cur, mx), PipelineEvent.start _ => (cur + 1, max mx (cur + 1))
  | (cur, mx), PipelineEvent.finish _ => (cur - 1, mx)

/-- The largest number of pipelines simultaneously in flight during a
trace. -/
def maxInFlight (tr : List PipelineEvent) : Nat :=
  (tr.foldl inFlightStep (0, 0)).2

/-! ### Modelled gzip facts and concrete scenario instances -/

/-- All elements are bytes. -/
def byteListB (l : List Nat) : Bool := l.all (fun b => b < 256)

/-- The first two bytes of every gzip stream (RFC 1952 magic). -/
def gzipMagic : List Nat := [31, 139]

/-- Modelled from the spec: the gzip encoder itself (`zlib.createGzip()`
with default parameters) is library code outside this repository, so only
the format-level facts the spec pins down are assumed of the whole-stream
encoder `g`: it is lossless (a standard deflate-family compressor's output
decodes back to its input, so `g` is injective on byte streams), it emits
bytes, and every emitted stream begins with the gzip magic bytes. -/
def GzipFacts (g : List Nat → List Nat) : Prop :=
  (∀ x y, byteListB x = true → byteListB y = true → g x = g y → x = y) ∧
  (∀ x, byteListB x = true → byteListB (g x) = true) ∧
  (∀ x, byteListB x = true → (g x).take 2 = gzipMagic)

/-- The default allow-list (line 109 / line 261). -/
def defaultValidAssets : List String := [".pk3", ".run", ".sh", ".qvm"]

/-- The default content root (line 259). -/
def root0 : List String := ["pk3_assets"]

/-- A minimal encoder satisfying `GzipFacts`, used to witness them. -/
def g0 : List Nat → List Nat := fun x => 31 :: 139 :: x

/-- The one-chunk chunking: the stream delivers the file in one data
event. -/
def ch0 : List Nat → List (List Nat) := fun c => [c]

/-- A concrete two-file snapshot: one allow-listed asset and one file
whose extension is not allow-listed. -/
def tree0 : List (String × FsTree) :=
  [("weapons", FsTree.dir [("gun.pk3", FsTree.file (Except.ok []))]),
   ("readme.txt", FsTree.file (Except.ok [1, 2]))]

/-- A snapshot whose only file fails to read. -/
def tree1 : List (String × FsTree) :=
  [("a.pk3", FsTree.file (Except.error "EIO"))]

/-- The spec's end-to-end scenario tree, with the asset's content left
abstract. -/
def scenarioTree (content : List Nat) : List (String × FsTree) :=
  [("weapons", FsTree.dir [("gun.pk3", FsTree.file (Except.ok content))])]

/-- The bound asserted by the end-to-end scenario claim, phrased against
the embedding: every 10000-byte content of the scenario's asset yields a
manifest entry with `compressed ≤ 10000`. -/
def C8Bound (g : List Nat → List Nat) : Prop :=
  ∀ content, byteListB content = true → content.length = 10000 →
    ∀ es, generateManifest g ch0 root0 (scenarioTree content) defaultValidAssets
        = Except.ok es →
      ∀ e ∈ es, e.compressed ≤ 10000

/-- Packs a byte list of length below 9999 into a length-indexed tuple of
bytes; used to count the byte strings a gzip-format encoder can emit
within the claimed size bound. -/
def listEnc (l : List Nat) (hlen : l.length < 9999) (hb : ∀ x ∈ l, x < 256) :
    (k : Fin 9999) × (Fin k.val → Fin 256) :=
  ⟨⟨l.length, hlen⟩, fun i => ⟨l.get ⟨i.val, i.isLt⟩, hb _ (l.get_mem _ _)⟩⟩

/-! ## Lemmas about the CRC32 accumulator -/

theorem crc32Update_append (a b : List Nat) (s : Nat) :
    crc32Update (a ++ b) s = crc32Update b (crc32Update a s) := by
  simp [crc32Update, List.foldl_append]

theorem nat_xor_cancel_right (x m : Nat) : x ^^^ m ^^^ m = x := by
  rw [Nat.xor_assoc, Nat.xor_self, Nat.xor_zero]

/-- Feeding a further chunk into a running `crc32.unsigned` accumulator is
the same as hashing the concatenation: the finalizing xor of the inner
call is undone by the seeding xor of the outer one. -/
theorem crc32unsigned_chain (a d : List Nat) (p : Nat) :
    crc32unsigned d (crc32unsigned a p) = crc32unsigned (a ++ d) p := by
  simp only [crc32unsigned, crc32Update_append, nat_xor_cancel_right]

theorem crc_fold_join (chunks : List (List Nat)) (pre : List Nat) :
    chunks.foldl (fun crc data => crc32unsigned data crc) (crc32unsigned pre 0)
      = crc32unsigned (pre ++ chunks.flatten) 0 := by
  induction chunks generalizing pre with
  | nil => simp
  | cons c cs ih =>
      simp only [List.foldl_cons, List.flatten_cons]
      rw [crc32unsigned_chain, ih, List.append_assoc]

/-! ## Lemmas about the manifest builder -/

theorem pathRelative_append (root p : List String) :
    pathRelative root (root ++ p) = p := by
  simp [pathRelative]

theorem mkEntry_checksum (g : List Nat → List Nat) (ch : List Nat → List (List Nat))
    (root file : List String) (c : List Nat) (hch : (ch c).flatten = c) :
    (mkEntry g ch root file c).checksum = crc32unsigned c 0 := by
  simp [mkEntry, crc_fold_join, hch]

theorem buildEntries_ok_names (g : List Nat → List Nat) (ch : List Nat → List (List Nat))
    (root : List String) :
    ∀ l es, buildEntries g ch root l = Except.ok es →
      es.map (fun e => e.name) = l.map (fun pc => pathRelative root pc.1)
  | [], es, h => by
      simp only [buildEntries] at h
      cases h
      simp
  | (p, Except.error e) :: rest, es, h => by
      simp only [buildEntries] at h
      exact Except.noConfusion h
  | (p, Except.ok c) :: rest, es, h => by
      simp only [buildEntries] at h
      cases hrest : buildEntries g ch root rest with
      | error e => rw [hrest] at h; simp [Except.map] at h
      | ok es' =>
          rw [hrest] at h
          simp only [Except.map] at h
          cases h
          simp [buildEntries_ok_names g ch root rest es' hrest, mkEntry]

theorem buildEntries_ok_mem (g : List Nat → List Nat) (ch : List Nat → List (List Nat))
    (root : List String) :
    ∀ l es, buildEntries g ch root l = Except.ok es →
      ∀ e ∈ es, ∃ p c, (p, Except.ok c) ∈ l ∧ e = mkEntry g ch root p c
  | [], es, h => by
      simp only [buildEntries] at h
      cases h
      simp
  | (p, Except.error er) :: rest, es, h => by
      simp only [buildEntries] at h
      exact Except.noConfusion h
  | (p, Except.ok c) :: rest, es, h => by
      simp only [buildEntries] at h
      cases hrest : buildEntries g ch root rest with
      | error e => rw [hrest] at h; simp [Except.map] at h
      | ok es' =>
          rw [hrest] at h
          simp only [Except.map] at h
          cases h
          intro e he
          rcases List.mem_cons.mp he with he | he
          · exact ⟨p, c, List.mem_cons_self _ _, he⟩
          · rcases buildEntries_ok_mem g ch root rest es' hrest e he with ⟨p', c', hm, hE⟩
            exact ⟨p', c', List.mem_cons_of_mem _ hm, hE⟩

theorem buildEntries_error_of_mem (g : List Nat → List Nat) (ch : List Nat → List (List Nat))
    (root : List String) :
    ∀ l p er, (p, Except.error er) ∈ l →
      ∃ e, buildEntries g ch root l = Except.error e
  | [], p, er, h => by cases h
  | (q, Except.error e0) :: rest, p, er, h => ⟨e0, by simp [buildEntries]⟩
  | (q, Except.ok c) :: rest, p, er, h => by
      rcases List.mem_cons.mp h with h | h
      · cases h
      · rcases buildEntries_error_of_mem g ch root rest p er h with ⟨e, he⟩
        exact ⟨e, by simp [buildEntries, he, Except.map]⟩

/-! ## Lemmas about the directory walk -/

theorem walk_head_mem :
    ∀ es : List (String × FsTree), ∀ pc ∈ walkList es,
      ∃ n, pc.1.head? = some n ∧ n ∈ es.map Prod.fst := by
  intro es
  induction es using walkList.induct with
  | case1 => intro pc h; simp [walkList] at h
  | case2 n c rest ih =>
      intro pc h
      simp only [walkList] at h
      rcases List.mem_cons.mp h with h | h
      · subst h; exact ⟨n, rfl, by simp⟩
      · rcases ih pc h with ⟨m, hm, hmem⟩
        exact ⟨m, hm, by simp [List.mem_cons]; right; simpa using hmem⟩
  | case3 n es' rest ih1 ih2 =>
      intro pc h
      simp only [walkList] at h
      rcases List.mem_append.mp h with h | h
      · rcases List.mem_map.mp h with ⟨pc', _, hpc⟩
        subst hpc
        exact ⟨n, rfl, by simp⟩
      · rcases ih2 pc h with ⟨m, hm, hmem⟩
        exact ⟨m, hm, by simp [List.mem_cons]; right; simpa using hmem⟩

theorem walk_segs_good :
    ∀ es : List (String × FsTree), wfEntries es = true →
      ∀ pc ∈ walkList es, ∀ s ∈ pc.1, goodSegB s = true := by
  intro es
  induction es using walkList.induct with
  | case1 => intro _ pc h; simp [walkList] at h
  | case2 n c rest ih =>
      intro hwf pc h
      simp only [wfEntries, Bool.and_eq_true] at hwf
      simp only [walkList] at h
      rcases List.mem_cons.mp h with h | h
      · subst h; intro s hs; simp at hs; subst hs; exact hwf.1.1
      · exact ih hwf.2 pc h
  | case3 n es' rest ih1 ih2 =>
      intro hwf pc h
      simp only [wfEntries, Bool.and_eq_true] at hwf
      simp only [walkList] at h
      rcases List.mem_append.mp h with h | h
      · rcases List.mem_map.mp h with ⟨pc', hpc', h'⟩
        subst h'
        intro s hs
        rcases List.mem_cons.mp hs with hs | hs
        · subst hs; exact hwf.1.1.1
        · exact ih1 hwf.1.2 pc' hpc' s hs
      · exact ih2 hwf.2 pc h

theorem walk_fst_nodup :
    ∀ es : List (String × FsTree), wfEntries es = true →
      ((walkList es).map Prod.fst).Nodup := by
  intro es
  induction es using walkList.induct with
  | case1 => intro _; simp [walkList]
  | case2 n c rest ih =>
      intro hwf
      simp only [wfEntries, Bool.and_eq_true] at hwf
      simp only [walkList, List.map_cons, List.nodup_cons]
      refine ⟨fun hmem => ?_, ih hwf.2⟩
      rcases List.mem_map.mp hmem with ⟨pc, hpc, hfst⟩
      rcases walk_head_mem rest pc hpc with ⟨m, hm, hmmem⟩
      rw [hfst] at hm
      simp at hm
      subst hm
      rcases List.mem_map.mp hmmem with ⟨e, he, hfst'⟩
      have := List.all_eq_true.mp hwf.1.2 e he
      simp [hfst'] at this
  | case3 n es' rest ih1 ih2 =>
      intro hwf
      simp only [wfEntries, Bool.and_eq_true] at hwf
      simp only [walkList, List.map_append, List.map_map]
      rw [List.nodup_append]
      refine ⟨?_, ih2 hwf.2, ?_⟩
      · have := (ih1 hwf.1.2).map (f := fun p => n :: p)
          (fun a b hab => by simpa using hab)
        simpa [Function.comp] using this
      · intro p hp hq
        rcases List.mem_map.mp hp with ⟨pc, _, hfst⟩
        rcases List.mem_map.mp hq with ⟨qc, hqc, hfst'⟩
        rcases walk_head_mem rest qc hqc with ⟨m, hm, hmmem⟩
        have hq2 : p.head? = some m := by rw [hfst'] at hm; exact hm
        have hp2 : p.head? = some n := by rw [← hfst]; rfl
        rw [hp2] at hq2
        simp at hq2
        subst hq2
        rcases List.mem_map.mp hmmem with ⟨e, he, hfst''⟩
        have := List.all_eq_true.mp hwf.1.1.2 e he
        simp [hfst''] at this

theorem walk_ne_nil :
    ∀ es : List (String × FsTree), ∀ pc ∈ walkList es, pc.1 ≠ [] := by
  intro es pc h
  rcases walk_head_mem es pc h with ⟨n, hn, _⟩
  intro hnil
  rw [hnil] at hn
  cases hn

/-! ## Lemmas about path normalization -/

theorem foldl_normStep_good (b : Bool) :
    ∀ l : List String, (∀ s ∈ l, goodSegB s = true) →
      ∀ acc, l.foldl (normStep b) acc = l.reverse ++ acc
  | [], _, acc => by simp
  | s :: l, h, acc => by
      have hs : goodSegB s = true := h s (List.mem_cons_self _ _)
      simp only [goodSegB, Bool.and_eq_true, bne_iff_ne, ne_eq,
        Bool.not_eq_true'] at hs
      have hstep : normStep b acc s = s :: acc := by
        simp [normStep, hs.1.1.1, hs.1.1.2, hs.1.2]
      rw [List.foldl_cons, hstep,
        foldl_normStep_good b l (fun t ht => h t (List.mem_cons_of_mem _ ht)) (s :: acc)]
      simp

theorem normalizeSegs_good (b : Bool) (l : List String)
    (h : ∀ s ∈ l, goodSegB s = true) : normalizeSegs b l = l := by
  simp [normalizeSegs, foldl_normStep_good b l h]

/-- A normalized clean relative path resolved against a clean root stays
below the root. -/
theorem pathResolve_clean (root : List String) (p : List String)
    (hroot : ∀ s ∈ root, goodSegB s = true) (hp : ∀ s ∈ p, goodSegB s = true) :
    pathResolve root (false, p) = root ++ p := by
  simp only [pathResolve]
  rw [if_neg (by simp)]
  apply normalizeSegs_good
  intro s hs
  rcases List.mem_append.mp hs with hs | hs
  · exact hroot s hs
  · exact hp s hs

/-! ## Characterization of `generateManifest` -/

theorem generateManifest_ok_names (g : List Nat → List Nat)
    (ch : List Nat → List (List Nat)) (root : List String)
    (tree : List (String × FsTree)) (va : List String) (es : List ManifestEntry)
    (h : generateManifest g ch root tree va = Except.ok es) :
    es.map (fun e => e.name)
      = ((walkList tree).filter (fun pc => va.contains (extnamePath pc.1))).map
          (fun pc => pc.1) := by
  have hn := buildEntries_ok_names g ch root (getAssets root tree va) es h
  rw [hn]
  simp [getAssets, List.map_map, Function.comp_def, pathRelative]

theorem generateManifest_ok_mem (g : List Nat → List Nat)
    (ch : List Nat → List (List Nat)) (root : List String)
    (tree : List (String × FsTree)) (va : List String) (es : List ManifestEntry)
    (h : generateManifest g ch root tree va = Except.ok es) :
    ∀ e ∈ es, ∃ p c, (p, Except.ok c) ∈ walkList tree ∧
      va.contains (extnamePath p) = true ∧ e = mkEntry g ch root (root ++ p) c := by
  intro e he
  rcases buildEntries_ok_mem g ch root (getAssets root tree va) es h e he with
    ⟨p', c, hmem, hE⟩
  rcases List.mem_map.mp hmem with ⟨pc, hpc, heq⟩
  rcases List.mem_filter.mp hpc with ⟨hwalk, hext⟩
  have h1 : root ++ pc.1 = p' := congrArg Prod.fst heq
  have h2 : pc.2 = Except.ok c := congrArg Prod.snd heq
  refine ⟨pc.1, c, ?_, hext, ?_⟩
  · rw [← h2]; exact hwalk
  · rw [hE, h1]

theorem generateManifest_error (g : List Nat → List Nat)
    (ch : List Nat → List (List Nat)) (root : List String)
    (tree : List (String × FsTree)) (va : List String) (p : List String) (er : String)
    (hmem : (p, Except.error er) ∈ walkList tree)
    (hext : va.contains (extnamePath p) = true) :
    ∃ e, generateManifest g ch root tree va = Except.error e := by
  apply buildEntries_error_of_mem g ch root (getAssets root tree va) (root ++ p) er
  exact List.mem_map.mpr ⟨(p, Except.error er),
    List.mem_filter.mpr ⟨hmem, hext⟩, rfl⟩

/-- The names stored in a manifest built from a well-formed snapshot are
clean relative paths: every segment is a well-formed entry name. -/
theorem generateManifest_names_good (g : List Nat → List Nat)
    (ch : List Nat → List (List Nat)) (root : List String)
    (tree : List (String × FsTree)) (va : List String) (es : List ManifestEntry)
    (hwf : wfEntries tree = true)
    (h : generateManifest g ch root tree va = Except.ok es) :
    ∀ e ∈ es, e.name ≠ [] ∧ ∀ s ∈ e.name, goodSegB s = true := by
  intro e he
  rcases generateManifest_ok_mem g ch root tree va es h e he with ⟨p, c, hwalk, _, hE⟩
  have hname : e.name = p := by rw [hE]; simp [mkEntry, pathRelative]
  rw [hname]
  exact ⟨walk_ne_nil tree (p, Except.ok c) hwalk,
    walk_segs_good tree hwf (p, Except.ok c) hwalk⟩

/-! ## Counting helpers and concrete evaluations -/

theorem countP_beq_zero_of_not_mem {α : Type _} [BEq α] [LawfulBEq α]
    (l : List α) (a : α) (h : a ∉ l) : l.countP (fun x => x == a) = 0 := by
  rw [List.countP_eq_zero]
  intro x hx
  simp only [beq_iff_eq]
  intro hxa
  subst hxa
  exact h hx

theorem countP_beq_one_of_nodup_mem {α : Type _} [BEq α] [LawfulBEq α] :
    ∀ (l : List α) (a : α), l.Nodup → a ∈ l → l.countP (fun x => x == a) = 1
  | [], a, _, hm => absurd hm (List.not_mem_nil a)
  | x :: l, a, hn, hm => by
      rw [List.countP_cons]
      rcases List.nodup_cons.mp hn with ⟨hx, hn2⟩
      rcases List.mem_cons.mp hm with h | h
      · subst h
        rw [countP_beq_zero_of_not_mem l a hx]
        simp
      · rw [countP_beq_one_of_nodup_mem l a hn2 h]
        have hxa : (x == a) = false := by
          simp only [beq_eq_false_iff_ne, ne_eq]
          intro hxa
          subst hxa
          exact hx h
        simp [hxa]

theorem walkList_tree0 : walkList tree0 =
    [(["weapons", "gun.pk3"], Except.ok []), (["readme.txt"], Except.ok [1, 2])] := by
  simp [tree0, walkList]

theorem wfEntries_tree0 : wfEntries tree0 = true := by
  simp [tree0, wfEntries, goodSegB]

theorem walkList_tree1 : walkList tree1 = [(["a.pk3"], Except.error "EIO")] := by
  simp [tree1, walkList]

theorem generateManifest_tree0 :
    generateManifest g0 ch0 root0 tree0 defaultValidAssets
      = Except.ok [⟨["weapons", "gun.pk3"], 2, 0⟩] := by
  simp only [generateManifest, getAssets]
  rw [walkList_tree0]
  rfl

/-! ## Claim theorems -/

/-- C5: folding the stream's chunks in order into the 32-bit checksum
accumulator seeded with `crc32.unsigned('')` — the CRC32 of the empty
input — yields exactly the one-shot CRC32 of the concatenated byte
sequence, for every way of splitting the bytes into chunks; the checksum
is therefore a deterministic function of the file's bytes, independent of
chunk boundaries. -/
theorem c5_crc32_chunk_fold_eq_whole (chunks : List (List Nat)) :
    chunks.foldl (fun crc data => crc32unsigned data crc) (crc32unsigned [] 0)
      = crc32unsigned chunks.flatten 0 := by
  have h := crc_fold_join chunks []
  simpa using h

/-- C1: `handleAsset` serves a file exactly when the published manifest
contains an entry whose name equals the join of the request's directory
prefix and basename and whose checksum equals the integer parsed from the
checksum segment; when no such entry exists — whether the path is unknown
or only the checksum mismatches — the answer is the one generic 400, and
the decision reads only the `name` and `checksum` fields: rewriting every
entry's `compressed` field leaves the response unchanged, and no
filesystem input enters the function. -/
theorem c1_handleAsset_serve_iff (root : List String) (m : List ManifestEntry)
    (bd : List String) (cs : List Char) (bn : List String) :
    (handleAsset root m bd cs bn ≠ AssetResponse.badRequest ↔
      ∃ e ∈ m, (pathJoin bd bn).1 = false ∧ e.name = (pathJoin bd bn).2 ∧
        parseIntDec cs = some e.checksum) ∧
    (∀ f : ManifestEntry → Nat,
      handleAsset root (m.map (fun e => { e with compressed := f e })) bd cs bn
        = handleAsset root m bd cs bn) := by
  constructor
  · simp only [handleAsset]
    cases hfind : m.find? (fun e => entryMatches e (pathJoin bd bn) (parseIntDec cs)) with
    | some e =>
        simp only [ne_eq]
        constructor
        · intro _
          have hp := List.find?_some hfind
          simp only [entryMatches, Bool.and_eq_true, Bool.not_eq_true',
            beq_iff_eq] at hp
          exact ⟨e, List.mem_of_find?_eq_some hfind, hp.1.1, hp.1.2, hp.2⟩
        · intro _
          simp
    | none =>
        simp only [ne_eq, not_true_eq_false, false_iff, not_exists]
        intro e
        simp only [not_and]
        intro hmem habs hname hcks
        have := List.find?_eq_none.mp hfind e hmem
        apply this
        simp only [entryMatches, Bool.and_eq_true, Bool.not_eq_true', beq_iff_eq]
        exact ⟨⟨habs, hname⟩, hcks⟩
  · intro f
    simp only [handleAsset, List.find?_map]
    have hpred : (fun e => entryMatches e (pathJoin bd bn) (parseIntDec cs)) ∘
        (fun e => { e with compressed := f e })
        = fun e => entryMatches e (pathJoin bd bn) (parseIntDec cs) := by
      funext e
      rfl
    rw [hpred]
    cases m.find? (fun e => entryMatches e (pathJoin bd bn) (parseIntDec cs)) <;> rfl

/-- C1 witness: a concrete request served through the iff, and a mismatched
checksum answered 400. -/
theorem c1_witness :
    handleAsset root0 [⟨["weapons", "gun.pk3"], 2, 0⟩] ["weapons"] ['0'] ["gun.pk3"]
      ≠ AssetResponse.badRequest :=
  (c1_handleAsset_serve_iff root0 [⟨["weapons", "gun.pk3"], 2, 0⟩]
      ["weapons"] ['0'] ["gun.pk3"]).1.mpr
    ⟨⟨["weapons", "gun.pk3"], 2, 0⟩, by decide, by decide, by decide, by decide⟩

/-- C4: over a well-formed snapshot, a successful build's manifest counts
exactly one entry named `p` when `p` is the relative path of a discovered
file whose extension is in the allow-list (exact, case-sensitive
comparison), and zero entries otherwise. -/
theorem c4_manifest_exactly_allowed (g : List Nat → List Nat)
    (ch : List Nat → List (List Nat)) (root : List String)
    (tree : List (String × FsTree)) (va : List String) (es : List ManifestEntry)
    (hwf : wfEntries tree = true)
    (hok : generateManifest g ch root tree va = Except.ok es) (p : List String) :
    es.countP (fun e => e.name == p)
      = if (((walkList tree).map Prod.fst).contains p
            && va.contains (extnamePath p)) = true then 1 else 0 := by
  have hcount : es.countP (fun e => e.name == p)
      = (es.map (fun e => e.name)).countP (fun x => x == p) := by
    rw [List.countP_map]
    rfl
  rw [hcount, generateManifest_ok_names g ch root tree va es hok]
  set L := ((walkList tree).filter
    (fun pc => va.contains (extnamePath pc.1))).map (fun pc => pc.1) with hL
  have hnodupL : L.Nodup := by
    have hsub : L.Sublist ((walkList tree).map Prod.fst) := by
      rw [hL]
      have h1 : ((walkList tree).filter
          (fun pc => va.contains (extnamePath pc.1))).map (fun pc => pc.1)
          = ((walkList tree).filter
              (fun pc => va.contains (extnamePath pc.1))).map Prod.fst := rfl
      rw [h1]
      exact List.Sublist.map _ (List.filter_sublist _)
    exact hsub.nodup (walk_fst_nodup tree hwf)
  have hiff : (((walkList tree).map Prod.fst).contains p
      && va.contains (extnamePath p)) = true ↔ p ∈ L := by
    constructor
    · intro hc
      rw [Bool.and_eq_true] at hc
      rcases hc with ⟨hcont, hext⟩
      rcases List.mem_map.mp (List.elem_iff.mp hcont) with ⟨pc, hpc, hfst⟩
      subst hfst
      exact List.mem_map.mpr ⟨pc, List.mem_filter.mpr ⟨hpc, hext⟩, rfl⟩
    · intro hm
      rcases List.mem_map.mp hm with ⟨pc, hpc, hfst⟩
      rcases List.mem_filter.mp hpc with ⟨hwalk, hext⟩
      subst hfst
      rw [Bool.and_eq_true]
      exact ⟨List.elem_iff.mpr (List.mem_map.mpr ⟨pc, hwalk, rfl⟩), hext⟩
  by_cases hmem : p ∈ L
  · rw [if_pos (hiff.mpr hmem)]
    exact countP_beq_one_of_nodup_mem L p hnodupL hmem
  · rw [if_neg (fun hc => hmem (hiff.mp hc))]
    exact countP_beq_zero_of_not_mem L p hmem

/-- C4 witness: in the two-file snapshot `tree0`, the built manifest has
exactly one entry named `weapons/gun.pk3`. -/
theorem c4_witness :
    ([⟨["weapons", "gun.pk3"], 2, 0⟩] : List ManifestEntry).countP
      (fun e => e.name == ["weapons", "gun.pk3"]) = 1 := by
  have h := c4_manifest_exactly_allowed g0 ch0 root0 tree0 defaultValidAssets
    [⟨["weapons", "gun.pk3"], 2, 0⟩] wfEntries_tree0 generateManifest_tree0
    ["weapons", "gun.pk3"]
  rw [walkList_tree0] at h
  simpa using h

/-- C6: when reading any allow-listed file's byte stream fails, the whole
build delivers an error: `generateManifest` produces no entry list, and at
startup `main` (which would `throw err`) publishes nothing, records the
fatal error, and never starts the HTTP server. -/
theorem c6_read_error_aborts_build (g : List Nat → List Nat)
    (ch : List Nat → List (List Nat)) (root : List String)
    (tree : List (String × FsTree)) (va : List String) (tS tC : Nat)
    (h : ∃ p er, (p, Except.error er) ∈ walkList tree ∧
      va.contains (extnamePath p) = true) :
    (∃ e, generateManifest g ch root tree va = Except.error e) ∧
    (mainStartup g ch root tree va tS tC).currentManifest = none ∧
    (mainStartup g ch root tree va tS tC).listening = false ∧
    (mainStartup g ch root tree va tS tC).fatal ≠ none := by
  rcases h with ⟨p, er, hmem, hext⟩
  rcases generateManifest_error g ch root tree va p er hmem hext with ⟨e, he⟩
  refine ⟨⟨e, he⟩, ?_, ?_, ?_⟩ <;> simp [mainStartup, he]

/-- C6 witness: the snapshot whose only file fails to read produces a
fatal, unpublished, non-listening startup. -/
theorem c6_witness :
    (mainStartup g0 ch0 root0 tree1 defaultValidAssets 0 5).listening = false :=
  (c6_read_error_aborts_build g0 ch0 root0 tree1 defaultValidAssets 0 5
    ⟨["a.pk3"], "EIO", by rw [walkList_tree1]; exact List.mem_singleton_self _,
      by decide⟩).2.2.1

/-- C3: a request whose reconstructed path still carries an up-level
(`".."`) segment after normalization — i.e. resolves outside the content
root — is answered 400, because every name in a manifest built from a
well-formed snapshot is a clean relative path and the reconstructed path
must equal such a name to be served; consequently every file `handleAsset`
streams resolves to a path below the content root. -/
theorem c3_no_traversal_escape (g : List Nat → List Nat)
    (ch : List Nat → List (List Nat)) (root : List String)
    (tree : List (String × FsTree)) (va : List String) (es : List ManifestEntry)
    (bd : List String) (cs : List Char) (bn : List String)
    (hroot : ∀ s ∈ root, goodSegB s = true)
    (hwf : wfEntries tree = true)
    (hok : generateManifest g ch root tree va = Except.ok es) :
    ((pathJoin bd bn).2.head? = some ".." →
      handleAsset root es bd cs bn = AssetResponse.badRequest) ∧
    (∀ ap, handleAsset root es bd cs bn = AssetResponse.serve ap → root <+: ap) := by
  constructor
  · intro hdd
    have hnone : es.find?
        (fun e => entryMatches e (pathJoin bd bn) (parseIntDec cs)) = none := by
      rw [List.find?_eq_none]
      intro e hmem hp
      simp only [entryMatches, Bool.and_eq_true, Bool.not_eq_true',
        beq_iff_eq] at hp
      rcases generateManifest_names_good g ch root tree va es hwf hok e hmem with
        ⟨hne, hgood⟩
      have hhead : e.name.head? = some ".." := by rw [hp.1.2]; exact hdd
      have hm2 : ".." ∈ e.name := by
        cases hname : e.name with
        | nil => rw [hname] at hhead; cases hhead
        | cons hd tl =>
            rw [hname] at hhead
            simp only [List.head?_cons, Option.some.injEq] at hhead
            rw [hhead]
            exact List.mem_cons_self _ _
      have hg := hgood ".." hm2
      simp [goodSegB] at hg
    simp only [handleAsset, hnone]
  · intro ap h
    simp only [handleAsset] at h
    cases hfind : es.find?
        (fun e => entryMatches e (pathJoin bd bn) (parseIntDec cs)) with
    | none => rw [hfind] at h; cases h
    | some e =>
        rw [hfind] at h
        have hap : pathResolve root (pathJoin bd bn) = ap := by
          cases h
          rfl
        have hp := List.find?_some hfind
        simp only [entryMatches, Bool.and_eq_true, Bool.not_eq_true',
          beq_iff_eq] at hp
        rcases generateManifest_names_good g ch root tree va es hwf hok e
          (List.mem_of_find?_eq_some hfind) with ⟨hne, hgood⟩
        have hpair : pathJoin bd bn = (false, e.name) := by
          have h1 := hp.1.1
          have h2 := hp.1.2
          cases hpj : pathJoin bd bn with
          | mk fst snd =>
              rw [hpj] at h1 h2
              simp only at h1 h2
              rw [h1, ← h2]
        rw [← hap, hpair, pathResolve_clean root e.name hroot hgood]
        exact ⟨e.name, rfl⟩

/-- C3 witness: a request climbing out of the root with `..` is rejected
on the concrete scenario manifest. -/
theorem c3_witness :
    handleAsset root0 [⟨["weapons", "gun.pk3"], 2, 0⟩] [".."] ['7'] ["x"]
      = AssetResponse.badRequest :=
  (c3_no_traversal_escape g0 ch0 root0 tree0 defaultValidAssets
      [⟨["weapons", "gun.pk3"], 2, 0⟩] [".."] ['7'] ["x"]
      (by decide) wfEntries_tree0 generateManifest_tree0).1 (by decide)

theorem mainStartup_ok (g : List Nat → List Nat) (ch : List Nat → List (List Nat))
    (root : List String) (tree : List (String × FsTree)) (va : List String)
    (tS tC : Nat) (es : List ManifestEntry)
    (hok : generateManifest g ch root tree va = Except.ok es) :
    mainStartup g ch root tree va tS tC
      = { currentManifest := some es, currentManifestTimestamp := some tC
        , listening := true, fatal := none } := by
  unfold mainStartup
  rw [hok]

/-- C7 counterexample: with the scenario snapshot, a build whose
`Date.now()` start (line 170) reads 0 and whose completion callback runs
at time 5 serves Last-Modified 5 — the publish/completion time — and not
the claimed build-start time 0. -/
theorem c7_counterexample :
    (handleManifest (mainStartup g0 ch0 root0 tree0 defaultValidAssets 0 5)).lastModified
        = some 5 ∧
    (handleManifest (mainStartup g0 ch0 root0 tree0 defaultValidAssets 0 5)).lastModified
        ≠ some 0 := by
  rw [mainStartup_ok g0 ch0 root0 tree0 defaultValidAssets 0 5
    [⟨["weapons", "gun.pk3"], 2, 0⟩] generateManifest_tree0]
  exact ⟨rfl, by decide⟩

/-- C7 amended: the Last-Modified value of `GET /assets/manifest.json` is
the wall-clock time at which the build's completion callback published the
manifest (`new Date()` at line 289) — the build's completion, not its
start; the start time of line 170 feeds only the duration log. -/
theorem c7_lastModified_is_publish_time (g : List Nat → List Nat)
    (ch : List Nat → List (List Nat)) (root : List String)
    (tree : List (String × FsTree)) (va : List String) (tS tC : Nat)
    (es : List ManifestEntry)
    (hok : generateManifest g ch root tree va = Except.ok es) :
    (handleManifest (mainStartup g ch root tree va tS tC)).lastModified = some tC := by
  rw [mainStartup_ok g ch root tree va tS tC es hok]
  rfl

/-- C7 witness: the amended statement at the concrete scenario build. -/
theorem c7_witness :
    (handleManifest (mainStartup g0 ch0 root0 tree0 defaultValidAssets 0 5)).lastModified
      = some 5 :=
  c7_lastModified_is_publish_time g0 ch0 root0 tree0 defaultValidAssets 0 5
    [⟨["weapons", "gun.pk3"], 2, 0⟩] generateManifest_tree0

/-- C2 counterexample: the manifest endpoint's wire object for the
scenario's entry has exactly the keys `name`, `compressed`, `checksum`:
there is no `compressedSize` key, so the claimed field set
{name, checksum, compressedSize} does not match the response. -/
theorem c2_counterexample :
    (handleManifest (mainStartup g0 ch0 root0 tree0 defaultValidAssets 0 5)).body
        = Json.arr [Json.obj [("name", Json.str "weapons/gun.pk3"),
            ("compressed", Json.num 2), ("checksum", Json.num 0)]] ∧
    "compressedSize" ∉ objFieldNames (Json.obj [("name", Json.str "weapons/gun.pk3"),
            ("compressed", Json.num 2), ("checksum", Json.num 0)]) := by
  constructor
  · rw [mainStartup_ok g0 ch0 root0 tree0 defaultValidAssets 0 5
      [⟨["weapons", "gun.pk3"], 2, 0⟩] generateManifest_tree0]
    rfl
  · decide

/-- C2 amended: the response body of `GET /assets/manifest.json` is the
JSON array of the built manifest entries, each serialized as an object
with exactly the keys `name`, `compressed` and `checksum` — the
compressed-size field is named `compressed` on the wire, not
`compressedSize` — whose values are the ones the integrity pipeline
produced: the root-relative name, the encoder's total emitted byte count,
and the CRC32 of the file's bytes. -/
theorem c2_manifest_body_fields (g : List Nat → List Nat)
    (ch : List Nat → List (List Nat)) (root : List String)
    (tree : List (String × FsTree)) (va : List String) (tS tC : Nat)
    (es : List ManifestEntry)
    (hch : ∀ c, (ch c).flatten = c)
    (hok : generateManifest g ch root tree va = Except.ok es) :
    (handleManifest (mainStartup g ch root tree va tS tC)).body
        = Json.arr (es.map jsonOfEntry) ∧
    (∀ j ∈ jsonElems (handleManifest (mainStartup g ch root tree va tS tC)).body,
      objFieldNames j = ["name", "compressed", "checksum"]) ∧
    (∀ e ∈ es, ∃ p c, (p, Except.ok c) ∈ walkList tree ∧
      va.contains (extnamePath p) = true ∧
      e.name = p ∧ e.compressed = (g c).length ∧ e.checksum = crc32unsigned c 0) := by
  have hbody : (handleManifest (mainStartup g ch root tree va tS tC)).body
      = Json.arr (es.map jsonOfEntry) := by
    rw [mainStartup_ok g ch root tree va tS tC es hok]
    rfl
  refine ⟨hbody, ?_, ?_⟩
  · rw [hbody]
    intro j hj
    simp only [jsonElems] at hj
    rcases List.mem_map.mp hj with ⟨e, _, hE⟩
    rw [← hE]
    rfl
  · intro e he
    rcases generateManifest_ok_mem g ch root tree va es hok e he with
      ⟨p, c, hw, hext, hE⟩
    refine ⟨p, c, hw, hext, ?_, ?_, ?_⟩
    · rw [hE]; simp [mkEntry, pathRelative]
    · rw [hE]
      rfl
    · rw [hE]; exact mkEntry_checksum g ch root (root ++ p) c (hch c)

/-- C2 witness: the amended statement's body shape at the concrete
scenario build. -/
theorem c2_witness :
    (handleManifest (mainStartup g0 ch0 root0 tree0 defaultValidAssets 0 5)).body
      = Json.arr (([⟨["weapons", "gun.pk3"], 2, 0⟩] : List ManifestEntry).map jsonOfEntry) :=
  (c2_manifest_body_fields g0 ch0 root0 tree0 defaultValidAssets 0 5
    [⟨["weapons", "gun.pk3"], 2, 0⟩] (fun c => by simp [ch0])
    generateManifest_tree0).1

/-! ## Lemmas about the `async.map` trace -/

theorem foldl_starts (l : List Nat) :
    ∀ c m, m ≤ c → (l.map PipelineEvent.start).foldl inFlightStep (c, m)
      = (c + l.length, if l.length = 0 then m else c + l.length) := by
  induction l with
  | nil => intro c m _; simp
  | cons a l ih =>
      intro c m hm
      simp only [List.map_cons, List.foldl_cons, inFlightStep]
      have hmax : max m (c + 1) = c + 1 := Nat.max_eq_right (Nat.le_succ_of_le hm)
      rw [hmax, ih (c + 1) (c + 1) (le_refl _)]
      by_cases h0 : l.length = 0 <;> simp [h0, Prod.ext_iff] <;> omega

theorem foldl_finishes (l : List Nat) :
    ∀ c m, ((l.map PipelineEvent.finish).foldl inFlightStep (c, m)).2 = m := by
  induction l with
  | nil => intro c m; rfl
  | cons a l ih =>
      intro c m
      simp only [List.map_cons, List.foldl_cons, inFlightStep]
      exact ih (c - 1) m

theorem maxInFlight_asyncMapTrace (n : Nat) (fo : List Nat) :
    maxInFlight (asyncMapTrace n fo) = n := by
  simp only [maxInFlight, asyncMapTrace, List.foldl_append]
  rw [foldl_starts (List.range n) 0 0 (le_refl 0)]
  simp only [List.length_range, Nat.zero_add]
  by_cases h0 : n = 0
  · subst h0
    rw [if_pos rfl, foldl_finishes]
  · rw [if_neg h0, foldl_finishes]

/-- C9 counterexample: no constant — in particular no configured or
default concurrency bound — limits the number of pipelines simultaneously
in flight: `async.map` starts every discovered file's pipeline before any
completes, so a build over more files than any alleged bound exceeds it. -/
theorem c9_counterexample :
    ¬ ∃ B : Nat, ∀ (n : Nat) (fo : List Nat),
      maxInFlight (asyncMapTrace n fo) ≤ B := by
  rintro ⟨B, hB⟩
  have h := hB (B + 1) []
  rw [maxInFlight_asyncMapTrace] at h
  omega

/-- C9 amended: the manifest build fans out with no concurrency limit —
`async.map` (line 172) is `mapLimit` with limit Infinity and the
configuration has no concurrency key — so the number of per-file pipelines
simultaneously in flight equals the number of discovered files. -/
theorem c9_fanout_equals_file_count (n : Nat) (fo : List Nat) :
    maxInFlight (asyncMapTrace n fo) = n :=
  maxInFlight_asyncMapTrace n fo

/-! ## Lemmas about the asset route -/

theorem routeTail_some (rest d b : List Char) (h : routeTail rest = some (d, b)) :
    d ≠ [] ∧ ∀ c ∈ d, isDigitChar c = true := by
  simp only [routeTail] at h
  cases hdrop : rest.drop (rest.takeWhile isDigitChar).length with
  | nil => rw [hdrop] at h; cases h
  | cons c tl =>
      rw [hdrop] at h
      have h2 : (if (c == '-' && !(rest.takeWhile isDigitChar).isEmpty
            && !tl.isEmpty) = true
          then some (rest.takeWhile isDigitChar, tl) else none) = some (d, b) := h
      by_cases hcond : (c == '-' && !(rest.takeWhile isDigitChar).isEmpty
          && !tl.isEmpty) = true
      · rw [if_pos hcond] at h2
        cases h2
        simp only [Bool.and_eq_true, Bool.not_eq_true'] at hcond
        constructor
        · intro hnil
          rw [hnil] at hcond
          simp at hcond
        · intro x hx
          exact List.mem_takeWhile_imp hx
      · rw [if_neg hcond] at h2
        cases h2

/-- C10: the checksum segment the asset route captures is always a
nonempty run of decimal digits (a segment containing a non-digit never
matches the route), and `handleAsset` consumes only its base-10 integer
value, so any two spellings with the same decimal value — e.g. `007` and
`7` — produce identical responses against every manifest. -/
theorem c10_checksum_base10 :
    (∀ u p d b, matchAssetRoute u = some (p, d, b) →
      d ≠ [] ∧ ∀ c ∈ d, isDigitChar c = true) ∧
    (∀ (root : List String) (m : List ManifestEntry) (bd : List String)
        (cs1 cs2 : List Char) (bn : List String),
      parseIntDec cs1 = parseIntDec cs2 →
      handleAsset root m bd cs1 bn = handleAsset root m bd cs2 bn) := by
  constructor
  · intro u p d b h
    simp only [matchAssetRoute] at h
    by_cases hpre : u.take 8 = "/assets/".toList
    · rw [if_pos hpre] at h
      rcases List.exists_of_findSome?_eq_some h with ⟨len, _, hf⟩
      cases hrt : routeTail ((u.drop 8).drop len) with
      | none => rw [hrt] at hf; cases hf
      | some db =>
          obtain ⟨d0, b0⟩ := db
          rw [hrt] at hf
          simp only [Option.map_some', Option.some.injEq] at hf
          have hd : d0 = d := congrArg (fun t => t.2.1) hf
          rcases routeTail_some ((u.drop 8).drop len) d0 b0 hrt with ⟨hne, hdig⟩
          rw [hd] at hne hdig
          exact ⟨hne, hdig⟩
    · rw [if_neg hpre] at h
      cases h
  · intro root m bd cs1 cs2 bn h
    simp only [handleAsset, h]

/-- C10 witness: the leading-zero spelling `007` is served exactly like
`7` against a concrete manifest. -/
theorem c10_witness :
    handleAsset root0 [⟨["weapons", "gun.pk3"], 2, 7⟩] ["weapons"]
        ['0', '0', '7'] ["gun.pk3"]
      = handleAsset root0 [⟨["weapons", "gun.pk3"], 2, 7⟩] ["weapons"]
        ['7'] ["gun.pk3"] :=
  c10_checksum_base10.2 root0 [⟨["weapons", "gun.pk3"], 2, 7⟩] ["weapons"]
    ['0', '0', '7'] ['7'] ["gun.pk3"] (by decide)

/-! ## The counting argument behind the compressed-size bound -/

theorem walkList_scenario (content : List Nat) :
    walkList (scenarioTree content)
      = [(["weapons", "gun.pk3"], Except.ok content)] := by
  simp [scenarioTree, walkList]

theorem generateManifest_scenario (g : List Nat → List Nat) (content : List Nat) :
    generateManifest g ch0 root0 (scenarioTree content) defaultValidAssets
      = Except.ok [{ name := ["weapons", "gun.pk3"]
                   , compressed := (g content).length
                   , checksum := (ch0 content).foldl
                       (fun crc data => crc32unsigned data crc)
                       (crc32unsigned [] 0) }] := by
  simp only [generateManifest, getAssets]
  rw [walkList_scenario]
  rfl

theorem listEnc_inj (l1 l2 : List Nat) (h1 : l1.length < 9999)
    (h2 : l2.length < 9999) (hb1 : ∀ x ∈ l1, x < 256) (hb2 : ∀ x ∈ l2, x < 256)
    (h : listEnc l1 h1 hb1 = listEnc l2 h2 hb2) : l1 = l2 := by
  have hlen : l1.length = l2.length := by
    have hfst := congrArg (fun s : (k : Fin 9999) × (Fin k.val → Fin 256) => s.1.val) h
    simpa [listEnc] using hfst
  apply List.ext_get hlen
  intro n hn1 hn2
  have hval := congrArg (fun s : (k : Fin 9999) × (Fin k.val → Fin 256) =>
    if hh : n < s.1.val then (s.2 ⟨n, hh⟩).val else 0) h
  simp only [listEnc] at hval
  rw [dif_pos hn1, dif_pos hn2] at hval
  exact hval

theorem card_sigma_lt :
    Fintype.card ((k : Fin 9999) × (Fin k.val → Fin 256))
      < Fintype.card (Fin 10000 → Fin 256) := by
  rw [Fintype.card_sigma, Fintype.card_fun, Fintype.card_fin, Fintype.card_fin]
  have h1 : ∀ k : Fin 9999, Fintype.card (Fin k.val → Fin 256) = 256 ^ k.val := by
    intro k
    rw [Fintype.card_fun, Fintype.card_fin, Fintype.card_fin]
  rw [Finset.sum_congr rfl (fun k _ => h1 k),
    Fin.sum_univ_eq_sum_range (fun i => 256 ^ i) 9999]
  have hgeom : ∀ n : Nat, (Finset.range n).sum (fun i => 256 ^ i) < 256 ^ n := by
    intro n
    induction n with
    | zero => simp
    | succ m ih =>
        rw [Finset.sum_range_succ]
        have hstep : 256 ^ m + 256 ^ m ≤ 256 ^ (m + 1) := by
          rw [pow_succ]
          have hpos : 1 ≤ 256 ^ m := Nat.one_le_pow m 256 (by norm_num)
          nlinarith
        omega
  calc (Finset.range 9999).sum (fun i => 256 ^ i)
      < 256 ^ 9999 := hgeom 9999
    _ < 256 ^ 10000 := Nat.pow_lt_pow_right (by norm_num) (by norm_num)

/-- No encoder that is lossless on byte streams, emits bytes, and prefixes
its output with the two gzip magic bytes can map every 10000-byte input to
at most 10000 output bytes: there are `256 ^ 10000` inputs but fewer
magic-prefixed byte strings of length at most 10000. -/
theorem no_universal_short_encoding (g : List Nat → List Nat)
    (hInj : ∀ x y, byteListB x = true → byteListB y = true → g x = g y → x = y)
    (hBytes : ∀ x, byteListB x = true → byteListB (g x) = true)
    (hMagic : ∀ x, byteListB x = true → (g x).take 2 = gzipMagic) :
    ¬ ∀ x, byteListB x = true → x.length = 10000 → (g x).length ≤ 10000 := by
  intro hshort
  have henc_bytes : ∀ v : Fin 10000 → Fin 256,
      byteListB (List.ofFn (fun i => (v i).val)) = true := by
    intro v
    rw [byteListB, List.all_eq_true]
    intro x hx
    rcases Set.mem_range.mp ((List.mem_ofFn _ _).mp hx) with ⟨i, hi⟩
    simp only [decide_eq_true_eq]
    rw [← hi]
    exact (v i).isLt
  have henc_len : ∀ v : Fin 10000 → Fin 256,
      (List.ofFn (fun i => (v i).val)).length = 10000 := by
    intro v
    exact List.length_ofFn _
  have hylen : ∀ v : Fin 10000 → Fin 256,
      (g (List.ofFn (fun i => (v i).val))).length ≤ 10000 :=
    fun v => hshort _ (henc_bytes v) (henc_len v)
  have hrestlen : ∀ v : Fin 10000 → Fin 256,
      ((g (List.ofFn (fun i => (v i).val))).drop 2).length < 9999 := by
    intro v
    rw [List.length_drop]
    have h := hylen v
    omega
  have hrestbytes : ∀ v : Fin 10000 → Fin 256,
      ∀ x ∈ (g (List.ofFn (fun i => (v i).val))).drop 2, x < 256 := by
    intro v x hx
    have hb := hBytes _ (henc_bytes v)
    rw [byteListB, List.all_eq_true] at hb
    have hxy := hb x (List.drop_subset 2 _ hx)
    simpa using hxy
  have hcard := Fintype.card_le_of_injective
    (fun v : Fin 10000 → Fin 256 =>
      listEnc ((g (List.ofFn (fun i => (v i).val))).drop 2)
        (hrestlen v) (hrestbytes v)) ?hinj
  · exact absurd hcard (not_le.mpr card_sigma_lt)
  case hinj =>
    intro v w hvw
    have hrest : (g (List.ofFn (fun i => (v i).val))).drop 2
        = (g (List.ofFn (fun i => (w i).val))).drop 2 :=
      listEnc_inj _ _ _ _ _ _ hvw
    have hy : g (List.ofFn (fun i => (v i).val))
        = g (List.ofFn (fun i => (w i).val)) := by
      calc g (List.ofFn (fun i => (v i).val))
          = (g (List.ofFn (fun i => (v i).val))).take 2
            ++ (g (List.ofFn (fun i => (v i).val))).drop 2 :=
            (List.take_append_drop 2 _).symm
        _ = (g (List.ofFn (fun i => (w i).val))).take 2
            ++ (g (List.ofFn (fun i => (w i).val))).drop 2 := by
            rw [hMagic _ (henc_bytes v), hMagic _ (henc_bytes w), hrest]
        _ = g (List.ofFn (fun i => (w i).val)) := List.take_append_drop 2 _
    have hx := hInj _ _ (henc_bytes v) (henc_bytes w) hy
    have hfn := List.ofFn_inj.mp hx
    funext i
    exact Fin.ext (congrFun hfn i)

theorem c8bound_short (g : List Nat → List Nat) (hB : C8Bound g) :
    ∀ x, byteListB x = true → x.length = 10000 → (g x).length ≤ 10000 := by
  intro x hb hl
  exact hB x hb hl _ (generateManifest_scenario g x) _ (List.mem_singleton_self _)

/-- C8 counterexample: the claim's bound is impossible: no whole-stream
encoder consistent with the gzip format (lossless, byte-emitting,
magic-prefixed — `GzipFacts`) keeps `compressedSize ≤ 10000` for every
10000-byte content of the scenario's one asset, because there are more
10000-byte contents than gzip-magic-prefixed byte strings of length at
most 10000; in particular the bound fails for zlib's actual gzip. -/
theorem c8_counterexample : ¬ ∃ g, GzipFacts g ∧ C8Bound g := by
  rintro ⟨g, ⟨hInj, hBytes, hMagic⟩, hB⟩
  exact no_universal_short_encoding g hInj hBytes hMagic (c8bound_short g hB)

/-- C8 amended: the entry's `compressed` value is the encoder's total
emitted byte count over the whole stream (flush included), and it is not
at most 10000 for every 10000-byte content: every encoder satisfying the
gzip format facts exceeds 10000 on some 10000-byte content of the
scenario's asset (e.g. incompressible bytes). -/
theorem c8_compressed_can_exceed (g : List Nat → List Nat) (hg : GzipFacts g) :
    ∃ content, byteListB content = true ∧ content.length = 10000 ∧
      ∀ es, generateManifest g ch0 root0 (scenarioTree content) defaultValidAssets
          = Except.ok es →
        ∃ e ∈ es, 10000 < e.compressed := by
  rcases hg with ⟨hInj, hBytes, hMagic⟩
  have hex := no_universal_short_encoding g hInj hBytes hMagic
  push_neg at hex
  rcases hex with ⟨x, hb, hl, hgt⟩
  refine ⟨x, hb, hl, ?_⟩
  intro es hok
  rw [generateManifest_scenario g x] at hok
  cases hok
  exact ⟨_, List.mem_singleton_self _, hgt⟩

/-- C8 witness: the minimal magic-prefixing encoder satisfies the modelled
gzip facts, and the amended statement holds for it. -/
theorem c8_witness :
    GzipFacts g0 ∧
    ∃ content, byteListB content = true ∧ content.length = 10000 ∧
      ∀ es, generateManifest g0 ch0 root0 (scenarioTree content) defaultValidAssets
          = Except.ok es →
        ∃ e ∈ es, 10000 < e.compressed := by
  have hg : GzipFacts g0 := by
    refine ⟨?_, ?_, ?_⟩
    · intro x y _ _ h
      simpa [g0] using h
    · intro x hx
      rw [byteListB, List.all_eq_true] at hx ⊢
      intro b hb
      rcases List.mem_cons.mp hb with hb | hb
      · subst hb; decide
      · rcases List.mem_cons.mp hb with hb | hb
        · subst hb; decide
        · exact hx b hb
    · intro x _
      rfl
  exact ⟨hg, c8_compressed_can_exceed g0 hg⟩

end TremWeb
